import Mathlib

/-
Verification of the numerical core of the contarg repository
(contarg/seedmap.py): the two voxelwise connectivity estimators
(get_ref_vox_con, get_seedmap_vox_con) and the center-of-mass helper
(get_com_in_mm).

Embedding choices
- Volumes are flattened lists of rational values; the whole-brain mask is a
  list of booleans over the same flattened grid. nilearn's apply_mask
  extracts the values at mask-true positions in grid order; unmask writes a
  value vector back at mask-true positions and fills 0 elsewhere.
- The per-run temporal cleaning (band-pass filter, smoothing,
  standardization, global-signal regression) is performed by nilearn's
  NiftiMasker, an external library; the embedding therefore takes the
  cleaned per-run time-by-voxel matrices as inputs and models everything
  the repository code itself does with them.
- Machine floats are modelled as rationals.  numpy's std involves a square
  root, which is not rational-valued; the embedded pipeline therefore takes
  the std functional as an explicit argument, and theorems about z-scoring
  constrain it by (std ts) ^ 2 = variance ts, the defining property of
  numpy's population standard deviation.
- numpy raises ZeroDivisionError inside np.average when the weights sum to
  zero; this raised exception is modelled by an Option result (none).
  Division of an array by a zero scalar does NOT raise in numpy (it yields
  non-finite values with a warning), so it is not modelled as a failure;
  theorems whose content depends on the values being finite carry a
  nonzero-standard-deviation hypothesis instead.
- np.matmul raises a ValueError on the rank-mismatched empty index array
  that arises in get_com_in_mm when no voxel is non-zero; that raised
  exception is likewise modelled by an Option result.
-/

namespace Contarg

/-- Dot product of two equal-length vectors, as computed by np.dot on
1-D arrays (zipWith truncates at the shorter length, matching the
well-formed equal-length case). -/
def dot (a b : List ℚ) : ℚ :=
  (List.zipWith (fun x y => x * y) a b).sum

/-- Arithmetic mean of a list, as computed by ndarray.mean. -/
def listMean (l : List ℚ) : ℚ :=
  l.sum / (l.length : ℚ)

/-- Population variance of a list: mean of squared deviations from the
mean.  numpy's ndarray.std (default ddof=0) is its square root. -/
def variance (l : List ℚ) : ℚ :=
  listMean (l.map (fun x => (x - listMean l) ^ 2))

/-- nl.masking.apply_mask: the values of a flattened volume at the
positions where the mask is true, in grid order. -/
def applyMask (vol : List ℚ) (mask : List Bool) : List ℚ :=
  (List.zip vol mask).filterMap (fun p => if p.2 then some p.1 else none)

/-- Boolean column indexing cat[:, m.astype(bool)] applied to one row:
keep the entries at positions where m is non-zero. -/
def selectNonzero (row m : List ℚ) : List ℚ :=
  (List.zip row m).filterMap (fun p => if p.2 = 0 then none else some p.1)

/-- Column j of a row-major matrix (list of rows). -/
def column (rows : List (List ℚ)) (j : ℕ) : List ℚ :=
  rows.map (fun r => r.getD j 0)

/-- nl.masking.unmask: write the value vector back at mask-true positions
and fill every other voxel with 0. -/
def unmask : List Bool → List ℚ → List ℚ
  | [], _ => []
  | true :: ms, v :: vs => v :: unmask ms vs
  | true :: ms, [] => 0 :: unmask ms []
  | false :: ms, vs => 0 :: unmask ms vs

/-- The reference seed time series of get_ref_vox_con (line 55):
per timepoint, the mean of the stacked matrix over the columns where the
masked reference mask is non-zero. -/
def refSeries (cat : List (List ℚ)) (maskedRef : List ℚ) : List ℚ :=
  cat.map (fun r => listMean (selectNonzero r maskedRef))

/-- get_ref_vox_con (seedmap.py lines 36-61), starting from the cleaned
per-run matrices (the NiftiMasker cleaning being external library code):
stack the runs along time (np.vstack), take the mean time series over the
reference-mask columns, dot every column of the stacked matrix with it,
divide by the number of timepoints, and unmask into the brain grid. -/
def get_ref_vox_con (subjMask : List Bool) (refVol : List ℚ)
    (runs : List (List (List ℚ))) : List ℚ :=
  let maskedRef := applyMask refVol subjMask
  let cat := runs.flatten
  let refTs := refSeries cat maskedRef
  let voxDat := (List.range (subjMask.count true)).map
    (fun j => dot (column cat j) refTs / (refTs.length : ℚ))
  unmask subjMask voxDat

/-- masked_seedmap[masked_stim_mask != 0] = 0 (line 102): zero the weight
wherever the stim vector is non-zero. -/
def zeroAtStim (w stim : List ℚ) : List ℚ :=
  List.zipWith (fun wi si => if si = 0 then wi else 0) w stim

/-- The seed-map weight vector of get_seedmap_vox_con (lines 99-102):
the seed map masked to the brain mask, with the weights inside the
stimulus ROI zeroed. -/
def seedWeights (subjMask : List Bool) (seedmapVol stimVol : List ℚ) : List ℚ :=
  zeroAtStim (applyMask seedmapVol subjMask) (applyMask stimVol subjMask)

/-- np.average(rows, axis=1, weights=w): per row the weight-weighted mean.
numpy raises ZeroDivisionError when the weights sum to zero; the raised
exception is modelled as none. -/
def npAverage (rows : List (List ℚ)) (w : List ℚ) : Option (List ℚ) :=
  if w.sum = 0 then none
  else some (rows.map (fun r => dot r w / w.sum))

/-- The stacked cleaned matrix of get_seedmap_vox_con (lines 113-118):
drop the first nDummy rows of each cleaned run, then np.vstack. -/
def catRuns (nDummy : ℕ) (runs : List (List (List ℚ))) : List (List ℚ) :=
  (runs.map (fun m => m.drop nDummy)).flatten

/-- The raw (pre z-score) seed-map reference series (line 119): weighted
average of the stacked matrix using the stim-zeroed seed-map weights. -/
def rawSeedSeries (subjMask : List Bool) (seedmapVol stimVol : List ℚ)
    (nDummy : ℕ) (runs : List (List (List ℚ))) : Option (List ℚ) :=
  npAverage (catRuns nDummy runs) (seedWeights subjMask seedmapVol stimVol)

/-- Z-scoring (line 120): subtract the mean, divide by the standard
deviation.  The std functional is a parameter (see the header comment). -/
def zscore (std : List ℚ → ℚ) (ts : List ℚ) : List ℚ :=
  ts.map (fun x => (x - listMean ts) / std ts)

/-- cat_clean_tses[:, masked_stim_mask == 0] = 0 (line 121): zero every
column whose masked stim-mask entry is zero. -/
def zeroOutsideStim (rows : List (List ℚ)) (stim : List ℚ) : List (List ℚ) :=
  rows.map (fun r => List.zipWith (fun x si => if si = 0 then 0 else x) r stim)

/-- get_seedmap_vox_con (seedmap.py lines 97-127), starting from the
cleaned per-run matrices: build the stim-zeroed seed-map weights, stack
the dummy-dropped runs, take the weighted-average reference series
(ZeroDivisionError modelled as none), z-score it, zero the columns outside
the stimulus ROI, dot every column with the z-scored series, divide by the
number of timepoints, unmask into the brain grid. -/
def get_seedmap_vox_con (std : List ℚ → ℚ) (subjMask : List Bool)
    (seedmapVol stimVol : List ℚ) (nDummy : ℕ)
    (runs : List (List (List ℚ))) : Option (List ℚ) :=
  (rawSeedSeries subjMask seedmapVol stimVol nDummy runs).map (fun ts0 =>
    let ts := zscore std ts0
    let zeroed := zeroOutsideStim (catRuns nDummy runs) (applyMask stimVol subjMask)
    let voxDat := (List.range (subjMask.count true)).map
      (fun j => dot (column zeroed j) ts / ((ts.length : ℚ)))
    unmask subjMask voxDat)

/-- The bold_path argument of either estimator: a bare run or a collection
of runs (here already in cleaned-matrix form, the loading and cleaning
being external library code). -/
inductive BoldInput (α : Type) where
  | single (run : α) : BoldInput α
  | multiple (runs : List α) : BoldInput α

/-- Modelled from the spec: contarg.utils.iterable is absent from the
sources; per the spec's implicit-iterable-or-scalar input handling it
distinguishes a collection of runs from a bare run value. -/
def iterable {α : Type} : BoldInput α → Bool
  | BoldInput.single _ => false
  | BoldInput.multiple _ => true

/-- Lines 31-34 / 92-95: if not iterable(bold_path) then wrap it into a
one-element list, else use the collection as is. -/
def resolveBoldPaths {α : Type} : BoldInput α → List α
  | BoldInput.single r => [r]
  | BoldInput.multiple rs => rs

/-- get_ref_vox_con as invoked on a bare-or-collection bold_path input. -/
def get_ref_vox_con_from_input (subjMask : List Bool) (refVol : List ℚ)
    (b : BoldInput (List (List ℚ))) : List ℚ :=
  get_ref_vox_con subjMask refVol (resolveBoldPaths b)

/-- A 3-D image for get_com_in_mm: grid dimensions, voxel data, and the
4-by-4 voxel-to-world affine as a list of rows. -/
structure ClustImage where
  nx : ℕ
  ny : ℕ
  nz : ℕ
  data : ℕ → ℕ → ℕ → ℚ
  affine : List (List ℚ)

/-- The integer grid coordinates of the non-zero voxels, in the C order
produced by np.where on the image data. -/
def nonzeroVoxels (img : ClustImage) : List (ℕ × ℕ × ℕ) :=
  (List.range img.nx).flatMap (fun i =>
    (List.range img.ny).flatMap (fun j =>
      (List.range img.nz).filterMap (fun k =>
        if img.data i j k = 0 then none else some (i, j, k))))

/-- The homogeneous integer grid coordinates of a voxel: list(rr) + [1]
(line 131). -/
def toHom (v : ℕ × ℕ × ℕ) : List ℚ :=
  [(v.1 : ℚ), (v.2.1 : ℚ), (v.2.2 : ℚ), 1]

/-- Matrix transpose restricted to the first ncols columns, as used for
ndarray.T on matrices of known width. -/
def transposeMat (m : List (List ℚ)) (ncols : ℕ) : List (List ℚ) :=
  (List.range ncols).map (fun j => column m j)

/-- np.matmul of a row-major matrix with a matrix of ncols columns. -/
def matmulN (a b : List (List ℚ)) (ncols : ℕ) : List (List ℚ) :=
  a.map (fun ar => (List.range ncols).map (fun j => dot ar (column b j)))

/-- get_com_in_mm (seedmap.py lines 130-133): stack the homogeneous integer
coordinates of the non-zero voxels as rows, np.matmul the affine with
their transpose, transpose back, keep the three spatial columns, and take
the columnwise mean.  On an image with no non-zero voxel the coordinate
array is empty and rank-mismatched, so np.matmul raises ValueError;
the raised exception is modelled as none. -/
def get_com_in_mm (img : ClustImage) : Option (List ℚ) :=
  let clust_idxs : List (List ℚ) := (nonzeroVoxels img).map toHom
  if clust_idxs.isEmpty then none
  else
    let idxsT := transposeMat clust_idxs 4
    let prod := matmulN img.affine idxsT clust_idxs.length
    let clust_locs := (transposeMat prod clust_idxs.length).map (fun r => r.take 3)
    some ((List.range 3).map (fun c => listMean (column clust_locs c)))

/-- A concrete test image with a single non-zero voxel at grid index
(2, 3, 5) and an identity affine. -/
def comTestImg : ClustImage where
  nx := 3
  ny := 4
  nz := 6
  data := fun i j k => if i = 2 ∧ j = 3 ∧ k = 5 then 1 else 0
  affine := [[1, 0, 0, 0], [0, 1, 0, 0], [0, 0, 1, 0], [0, 0, 0, 1]]

/-- A concrete all-zero test image. -/
def zeroTestImg : ClustImage where
  nx := 2
  ny := 2
  nz := 2
  data := fun _ _ _ => 0
  affine := [[1, 0, 0, 0], [0, 1, 0, 0], [0, 0, 1, 0], [0, 0, 0, 1]]

end Contarg

namespace Contarg

/-- Getting an element of a mapped list below its length applies the
function to the corresponding element of the original list. -/
theorem getD_map_lt {α β : Type} (l : List α) (f : α → β) (d : α) (e : β) :
    ∀ j : ℕ, j < l.length → (l.map f).getD j e = f (l.getD j d) := by
  induction l with
  | nil => intro j hj; exact absurd hj (by simp)
  | cons x xs ih =>
    intro j hj
    cases j with
    | zero => rfl
    | succ n =>
      simp only [List.map_cons, List.getD_cons_succ]
      exact ih n (by simpa using hj)

/-- Getting an element of a mapped list is total when the function sends the
default to the default. -/
theorem getD_map_total {α β : Type} (l : List α) (f : α → β) (d : α) (e : β)
    (hd : f d = e) : ∀ j : ℕ, (l.map f).getD j e = f (l.getD j d) := by
  induction l with
  | nil => intro j; simp [hd]
  | cons x xs ih =>
    intro j
    cases j with
    | zero => rfl
    | succ n =>
      simp only [List.map_cons, List.getD_cons_succ]
      exact ih n

/-- Mapping an element-of-list accessor over the range of its length
recovers the mapped list. -/
theorem map_range_getD {α β : Type} (f : α → β) (d : α) :
    ∀ l : List α, (List.range l.length).map (fun j => f (l.getD j d)) = l.map f := by
  intro l
  induction l with
  | nil => rfl
  | cons x xs ih =>
    rw [List.length_cons, List.range_succ_eq_map, List.map_cons, List.map_map]
    simp only [List.getD_cons_zero, Function.comp, List.getD_cons_succ]
    rw [List.map_cons]
    exact congrArg (List.cons (f x)) ih

/-- unmask writes 0 at every grid position where the mask is false. -/
theorem unmask_getD_false (mask : List Bool) (vals : List ℚ) :
    ∀ i : ℕ, mask.getD i false = false → (unmask mask vals).getD i 0 = 0 := by
  induction mask generalizing vals with
  | nil => intro i _; simp [unmask]
  | cons m ms ih =>
    intro i hm
    cases m with
    | false =>
      cases i with
      | zero => cases vals <;> simp [unmask]
      | succ n =>
        cases vals with
        | nil => simpa [unmask] using ih [] n (by simpa using hm)
        | cons v vs => simpa [unmask] using ih (v :: vs) n (by simpa using hm)
    | true =>
      cases i with
      | zero => simp at hm
      | succ n =>
        cases vals with
        | nil => simpa [unmask] using ih [] n (by simpa using hm)
        | cons v vs => simpa [unmask] using ih vs n (by simpa using hm)

/-- applyMask on a cons with a true mask head keeps the head value. -/
theorem applyMask_cons_true (v : ℚ) (vs : List ℚ) (ms : List Bool) :
    applyMask (v :: vs) (true :: ms) = v :: applyMask vs ms := rfl

/-- applyMask on a cons with a false mask head drops the head value. -/
theorem applyMask_cons_false (v : ℚ) (vs : List ℚ) (ms : List Bool) :
    applyMask (v :: vs) (false :: ms) = applyMask vs ms := rfl

/-- If a grid position holds 0 in a volume whose masked vector forces the
value vector to 0 at every masked index where the volume is 0, then the
unmasked result is 0 at that position. -/
theorem unmask_getD_zero_of_applyMask (mask : List Bool) :
    ∀ (vol : List ℚ) (vals : List ℚ) (i : ℕ), vol.length = mask.length →
      vol.getD i 0 = 0 →
      (∀ j : ℕ, (applyMask vol mask).getD j 0 = 0 → vals.getD j 0 = 0) →
      (unmask mask vals).getD i 0 = 0 := by
  induction mask with
  | nil => intro vol vals i _ _ _; simp [unmask]
  | cons m ms ih =>
    intro vol vals i hlen hv hj
    cases vol with
    | nil => exact absurd hlen (by simp)
    | cons v vs =>
      have hlen2 : vs.length = ms.length := by simpa using hlen
      cases m with
      | false =>
        cases i with
        | zero => cases vals <;> simp [unmask]
        | succ n =>
          have step : (unmask ms vals).getD n 0 = 0 := by
            refine ih vs vals n hlen2 (by simpa using hv) ?_
            intro j hjz
            exact hj j (by simpa [applyMask_cons_false] using hjz)
          cases vals with
          | nil => simpa [unmask] using step
          | cons a as => simpa [unmask] using step
      | true =>
        cases vals with
        | nil =>
          cases i with
          | zero => simp [unmask]
          | succ n =>
            have step : (unmask ms ([] : List ℚ)).getD n 0 = 0 := by
              refine ih vs [] n hlen2 (by simpa using hv) ?_
              intro j _; simp
            simpa [unmask] using step
        | cons a as =>
          cases i with
          | zero =>
            have ha : a = 0 := by
              have := hj 0 (by simpa [applyMask_cons_true] using hv)
              simpa using this
            simp [unmask, ha]
          | succ n =>
            have step : (unmask ms as).getD n 0 = 0 := by
              refine ih vs as n hlen2 (by simpa using hv) ?_
              intro j hjz
              have := hj (j + 1) (by simpa [applyMask_cons_true] using hjz)
              simpa using this
            simpa [unmask] using step

/-- The stim-zeroed weights vanish wherever the stim vector is non-zero. -/
theorem zeroAtStim_getD_zero (w : List ℚ) :
    ∀ (stim : List ℚ) (j : ℕ), stim.getD j 0 ≠ 0 →
      (zeroAtStim w stim).getD j 0 = 0 := by
  induction w with
  | nil => intro stim j _; simp [zeroAtStim]
  | cons wi ws ih =>
    intro stim j hs
    cases stim with
    | nil => exact absurd (by simp : ([] : List ℚ).getD j 0 = 0) hs
    | cons si ss =>
      cases j with
      | zero =>
        have hsi : si ≠ 0 := by simpa using hs
        simp [zeroAtStim, hsi]
      | succ n =>
        simpa [zeroAtStim] using ih ss n (by simpa using hs)

/-- A column of the stim-zeroed matrix is elementwise 0 at every index where
the stim vector is 0. -/
theorem zeroOutsideStim_entry_zero (r : List ℚ) :
    ∀ (stim : List ℚ) (j : ℕ), stim.getD j 0 = 0 →
      (List.zipWith (fun x si => if si = 0 then 0 else x) r stim).getD j 0 = 0 := by
  induction r with
  | nil => intro stim j _; simp
  | cons x xs ih =>
    intro stim j hs
    cases stim with
    | nil => simp
    | cons si ss =>
      cases j with
      | zero =>
        have hsi : si = 0 := by simpa using hs
        simp [hsi]
      | succ n =>
        simpa using ih ss n (by simpa using hs)

/-- A dot product with an elementwise-zero left factor is 0. -/
theorem dot_eq_zero_of_left_zero (l : List ℚ) :
    ∀ ts : List ℚ, (∀ x ∈ l, x = 0) → dot l ts = 0 := by
  induction l with
  | nil => intro ts _; simp [dot]
  | cons x xs ih =>
    intro ts h
    cases ts with
    | nil => simp [dot]
    | cons t tt =>
      have hx : x = 0 := h x (by simp)
      have hrest : dot xs tt = 0 := ih tt (fun y hy => h y (by simp [hy]))
      simp [dot, hx]
      simpa [dot] using hrest

/-- Claim C5: in reference-seed mode a bare run and the same run wrapped in a
one-element collection produce identical results. -/
theorem ref_single_eq_one_element_collection (subjMask : List Bool)
    (refVol : List ℚ) (run : List (List ℚ)) :
    get_ref_vox_con_from_input subjMask refVol (BoldInput.single run) =
      get_ref_vox_con_from_input subjMask refVol (BoldInput.multiple [run]) :=
  rfl


/-- Claim C1: in reference-seed mode the seed time series is, per timepoint,
the mean of the stacked matrix over the voxels inside the reference mask,
and the returned per-voxel statistic is the matrix-transpose dotted with
that seed series divided by the total number of timepoints. -/
theorem ref_vox_con_correct (subjMask : List Bool) (refVol : List ℚ)
    (runs : List (List (List ℚ))) (t : ℕ) :
    (refSeries runs.flatten (applyMask refVol subjMask)).getD t 0 =
        listMean (selectNonzero (runs.flatten.getD t [])
          (applyMask refVol subjMask)) ∧
      get_ref_vox_con subjMask refVol runs =
        unmask subjMask ((List.range (subjMask.count true)).map
          (fun j => dot (column runs.flatten j)
              (refSeries runs.flatten (applyMask refVol subjMask)) /
            ((runs.flatten.length : ℚ)))) := by
  constructor
  · unfold refSeries
    exact getD_map_total runs.flatten _ [] 0 (by simp [selectNonzero, listMean]) t
  · simp only [get_ref_vox_con, refSeries, List.length_map]

/-- Claim C2: in seed-map mode every entry of the seed-map weight vector at a
voxel inside the stimulus ROI is exactly zero, and the weighted-average
reference series is computed from exactly these stim-zeroed weights. -/
theorem seedmap_weights_zero_in_stim (subjMask : List Bool)
    (seedmapVol stimVol : List ℚ) (nDummy : ℕ)
    (runs : List (List (List ℚ))) (j : ℕ)
    (hstim : (applyMask stimVol subjMask).getD j 0 ≠ 0) :
    (seedWeights subjMask seedmapVol stimVol).getD j 0 = 0 ∧
      rawSeedSeries subjMask seedmapVol stimVol nDummy runs =
        npAverage (catRuns nDummy runs)
          (seedWeights subjMask seedmapVol stimVol) :=
  ⟨zeroAtStim_getD_zero _ _ j hstim, rfl⟩

/-- Witness for C2 at a concrete input. -/
theorem seedmap_weights_zero_in_stim_witness :
    (applyMask [(1 : ℚ)] [true]).getD 0 0 ≠ 0 ∧
      (seedWeights [true] [(5 : ℚ)] [(1 : ℚ)]).getD 0 0 = 0 :=
  ⟨by decide, (seedmap_weights_zero_in_stim [true] [5] [1] 0 [] 0 (by decide)).1⟩

/-- Claim C4: in both estimators every voxel of the output volume outside the
whole-brain mask is exactly zero. -/
theorem outside_brain_mask_zero (std : List ℚ → ℚ) (subjMask : List Bool)
    (refVol seedmapVol stimVol : List ℚ) (nDummy : ℕ)
    (runs runs2 : List (List (List ℚ))) (out : List ℚ) (i : ℕ)
    (hmask : subjMask.getD i false = false) :
    (get_ref_vox_con subjMask refVol runs).getD i 0 = 0 ∧
      (get_seedmap_vox_con std subjMask seedmapVol stimVol nDummy runs2 =
          some out → out.getD i 0 = 0) := by
  constructor
  · exact unmask_getD_false subjMask _ i hmask
  · intro hres
    rcases Option.map_eq_some'.mp hres with ⟨ts0, _, hout⟩
    rw [← hout]
    exact unmask_getD_false subjMask _ i hmask

/-- Witness for C4 at a concrete input. -/
theorem outside_brain_mask_zero_witness :
    ([true, false] : List Bool).getD 1 false = false ∧
      (get_ref_vox_con [true, false] [1, 1] [[[2], [4]]]).getD 1 0 = 0 :=
  ⟨by decide,
    (outside_brain_mask_zero (fun _ => 1) [true, false] [1, 1] [1, 1] [0, 1] 0
      [[[2], [4]]] [[[2], [4]]] [] 1 (by decide)).1⟩

/-- Claim C6 counterexample: a raw seed-map reference series of zero variance
with a non-zero weight sum does not make the call fail; the call still
returns a volume.  (numpy only raises inside np.average when the weights
sum to zero; dividing by the zero standard deviation merely yields
non-finite values, it does not raise.) -/
theorem seedmap_zero_variance_no_failure :
    rawSeedSeries [true, true] [1, 1] [1, 0] 0 [[[1, 1], [1, 1]]] =
        some [1, 1] ∧
      variance [1, 1] = 0 ∧
      (get_seedmap_vox_con (fun _ => 0) [true, true] [1, 1] [1, 0] 0
          [[[1, 1], [1, 1]]]).isSome = true := by
  have hraw : rawSeedSeries [true, true] [1, 1] [1, 0] 0 [[[1, 1], [1, 1]]] =
      some [1, 1] := by
    norm_num [rawSeedSeries, npAverage, catRuns, seedWeights, zeroAtStim,
      applyMask, dot, List.zip, List.filterMap_cons]
  refine ⟨hraw, by norm_num [variance, listMean], ?_⟩
  rw [get_seedmap_vox_con, hraw, Option.map_some']
  rfl

/-- Claim C6 amended: the seed-map call fails precisely when the stim-zeroed
seed-map weights sum to zero (np.average raises ZeroDivisionError there);
a zero-variance weighted-average series with a non-zero weight sum does
not raise, the division by the zero standard deviation yields non-finite
values and a volume is still returned. -/
theorem seedmap_fails_iff_weight_sum_zero (std : List ℚ → ℚ)
    (subjMask : List Bool) (seedmapVol stimVol : List ℚ) (nDummy : ℕ)
    (runs : List (List (List ℚ))) :
    get_seedmap_vox_con std subjMask seedmapVol stimVol nDummy runs = none ↔
      (seedWeights subjMask seedmapVol stimVol).sum = 0 := by
  unfold get_seedmap_vox_con rawSeedSeries npAverage
  by_cases h : (seedWeights subjMask seedmapVol stimVol).sum = 0 <;> simp [h]

/-- Claim C9: on an image with no non-zero voxel, get_com_in_mm fails
(np.matmul raises ValueError on the rank-mismatched empty coordinate
array, modelled as none). -/
theorem com_in_mm_empty_fails (img : ClustImage)
    (h : nonzeroVoxels img = []) : get_com_in_mm img = none := by
  unfold get_com_in_mm
  simp [h]

/-- Witness for C9 at a concrete all-zero image. -/
theorem com_in_mm_empty_fails_witness :
    nonzeroVoxels zeroTestImg = [] ∧ get_com_in_mm zeroTestImg = none :=
  ⟨by decide, com_in_mm_empty_fails zeroTestImg (by decide)⟩

/-- Claim C10: in seed-map mode the weighted-average reference series is
computed from the stacked matrix before any column is zeroed: every
timepoint of it is the weight-weighted mean of the full row, with voxels
outside the stimulus ROI contributing in proportion to their seed-map
weights, and the zeroing of columns outside the stimulus ROI enters only
the final per-voxel dot product, with the very same z-scored series. -/
theorem seedmap_series_before_zeroing (std : List ℚ → ℚ)
    (subjMask : List Bool) (seedmapVol stimVol : List ℚ) (nDummy : ℕ)
    (runs : List (List (List ℚ))) (ts0 : List ℚ) (t : ℕ)
    (hraw : rawSeedSeries subjMask seedmapVol stimVol nDummy runs = some ts0) :
    ts0.getD t 0 =
        dot ((catRuns nDummy runs).getD t [])
            (seedWeights subjMask seedmapVol stimVol) /
          (seedWeights subjMask seedmapVol stimVol).sum ∧
      get_seedmap_vox_con std subjMask seedmapVol stimVol nDummy runs =
        some (unmask subjMask ((List.range (subjMask.count true)).map
          (fun j => dot (column (zeroOutsideStim (catRuns nDummy runs)
                (applyMask stimVol subjMask)) j) (zscore std ts0) /
            (((zscore std ts0).length : ℚ))))) := by
  have hw : ¬ (seedWeights subjMask seedmapVol stimVol).sum = 0 := by
    intro h0
    rw [rawSeedSeries, npAverage, if_pos h0] at hraw
    exact Option.noConfusion hraw
  have hts : ts0 = (catRuns nDummy runs).map
      (fun r => dot r (seedWeights subjMask seedmapVol stimVol) /
        (seedWeights subjMask seedmapVol stimVol).sum) := by
    rw [rawSeedSeries, npAverage, if_neg hw] at hraw
    exact (Option.some.injEq _ _ ▸ hraw).symm
  constructor
  · rw [hts]
    exact getD_map_total (catRuns nDummy runs) _ [] 0 (by simp [dot]) t
  · rw [get_seedmap_vox_con, hraw, Option.map_some']

/-- Witness for C10 at a concrete input. -/
theorem seedmap_series_before_zeroing_witness :
    rawSeedSeries [true, true] [1, 1] [0, 1] 0 [[[1, 2], [3, 4]]] =
        some [1, 3] ∧
      (([1, 3] : List ℚ).getD 0 0 =
          dot ((catRuns 0 [[[1, 2], [3, 4]]]).getD 0 [])
              (seedWeights [true, true] [1, 1] [0, 1]) /
            (seedWeights [true, true] [1, 1] [0, 1]).sum ∧
        get_seedmap_vox_con (fun _ => 1) [true, true] [1, 1] [0, 1] 0
            [[[1, 2], [3, 4]]] =
          some (unmask [true, true]
            ((List.range (([true, true] : List Bool).count true)).map
              (fun j => dot (column (zeroOutsideStim (catRuns 0 [[[1, 2], [3, 4]]])
                    (applyMask [0, 1] [true, true])) j)
                  (zscore (fun _ => 1) [1, 3]) /
                (((zscore (fun _ => 1) [1, 3]).length : ℚ)))))) := by
  have hraw : rawSeedSeries [true, true] [1, 1] [0, 1] 0 [[[1, 2], [3, 4]]] =
      some [1, 3] := by
    norm_num [rawSeedSeries, npAverage, catRuns, seedWeights, zeroAtStim,
      applyMask, dot, List.zip, List.filterMap_cons]
  exact ⟨hraw, seedmap_series_before_zeroing (fun _ => 1) [true, true] [1, 1]
    [0, 1] 0 [[[1, 2], [3, 4]]] [1, 3] 0 hraw⟩

/-- Getting an element of a range below its bound gives the index itself. -/
theorem range_getD (n j : ℕ) (h : j < n) : (List.range n).getD j 0 = j := by
  rw [List.getD_eq_getElem?_getD, List.getElem?_range h]
  rfl

/-- Claim C3: in seed-map mode every voxel of the output volume outside the
stimulus ROI is exactly zero (its column having been zeroed before the dot
product), under the validity conditions that the stim volume matches the
grid and the z-score divisor is non-zero (a zero divisor would poison the
whole volume with non-finite values in the source). -/
theorem seedmap_outside_stim_zero (std : List ℚ → ℚ) (subjMask : List Bool)
    (seedmapVol stimVol : List ℚ) (nDummy : ℕ) (runs : List (List (List ℚ)))
    (out ts0 : List ℚ) (i : ℕ)
    (hres : get_seedmap_vox_con std subjMask seedmapVol stimVol nDummy runs =
      some out)
    (hraw : rawSeedSeries subjMask seedmapVol stimVol nDummy runs = some ts0)
    (hstd : std ts0 ≠ 0)
    (hlen : stimVol.length = subjMask.length)
    (hstim : stimVol.getD i 0 = 0) :
    out.getD i 0 = 0 := by
  rw [get_seedmap_vox_con, hraw, Option.map_some'] at hres
  have hout := (Option.some.injEq _ _).mp hres
  rw [← hout]
  refine unmask_getD_zero_of_applyMask subjMask stimVol _ i hlen hstim ?_
  intro j hjz
  by_cases hjV : j < subjMask.count true
  · rw [getD_map_lt (List.range (subjMask.count true)) _ 0 0 j
      (by simpa using hjV), range_getD _ j hjV]
    have hcol : ∀ x ∈ column (zeroOutsideStim (catRuns nDummy runs)
        (applyMask stimVol subjMask)) j, x = 0 := by
      intro x hx
      rcases List.mem_map.mp hx with ⟨r, hr, hxr⟩
      rcases List.mem_map.mp hr with ⟨r0, _, hr0⟩
      rw [← hxr, ← hr0]
      exact zeroOutsideStim_entry_zero r0 (applyMask stimVol subjMask) j hjz
    rw [dot_eq_zero_of_left_zero _ _ hcol, zero_div]
  · exact List.getD_eq_default _ _ (by simpa using Nat.le_of_not_lt hjV)

/-- Witness for C3 at a concrete input. -/
theorem seedmap_outside_stim_zero_witness :
    get_seedmap_vox_con (fun _ => 1) [true, true] [1, 1] [0, 1] 0
        [[[1, 2], [3, 4]]] = some [0, 1] ∧
      ([(0 : ℚ), 1] : List ℚ).getD 0 0 = 0 := by
  have hraw : rawSeedSeries [true, true] [1, 1] [0, 1] 0 [[[1, 2], [3, 4]]] =
      some [1, 3] := by
    norm_num [rawSeedSeries, npAverage, catRuns, seedWeights, zeroAtStim,
      applyMask, dot, List.zip, List.filterMap_cons]
  have hres : get_seedmap_vox_con (fun _ => 1) [true, true] [1, 1] [0, 1] 0
      [[[1, 2], [3, 4]]] = some [0, 1] := by
    rw [get_seedmap_vox_con, hraw, Option.map_some']
    norm_num [zscore, listMean, zeroOutsideStim, column, applyMask, dot,
      unmask, List.zip, List.filterMap_cons, List.range_succ, catRuns]
  exact ⟨hres, seedmap_outside_stim_zero (fun _ => 1) [true, true] [1, 1]
    [0, 1] 0 [[[1, 2], [3, 4]]] [0, 1] [1, 3] 0 hres hraw (by norm_num)
    (by decide) (by norm_num)⟩


/-- Summing a pointwise division is division of the sum. -/
theorem sum_map_div (l : List ℚ) (f : ℚ → ℚ) (c : ℚ) :
    (l.map (fun x => f x / c)).sum = (l.map f).sum / c := by
  induction l with
  | nil => simp
  | cons x xs ih => simp [ih, add_div]

/-- Summing a pointwise subtraction of a constant. -/
theorem sum_map_sub_const (l : List ℚ) (c : ℚ) :
    (l.map (fun x => x - c)).sum = l.sum - (l.length : ℚ) * c := by
  induction l with
  | nil => simp
  | cons x xs ih =>
    simp only [List.map_cons, List.sum_cons, ih, List.length_cons,
      Nat.cast_succ]
    ring

/-- The z-scored series always has mean exactly 0. -/
theorem listMean_zscore (std : List ℚ → ℚ) (l : List ℚ) :
    listMean (zscore std l) = 0 := by
  rcases eq_or_ne l [] with rfl | hl
  · simp [zscore, listMean]
  · have hn : (l.length : ℚ) ≠ 0 := by
      simpa using fun h => hl (List.length_eq_zero.mp h)
    unfold zscore listMean
    rw [List.length_map, sum_map_div l (fun x => x - l.sum / (l.length : ℚ)),
      sum_map_sub_const]
    have hc : (l.length : ℚ) * (l.sum / (l.length : ℚ)) = l.sum := by
      rw [mul_comm, div_mul_cancel₀ _ hn]
    rw [hc, sub_self, zero_div, zero_div]

/-- If the z-score divisor squares to the variance and is non-zero, the
z-scored series has variance exactly 1. -/
theorem variance_zscore (std : List ℚ → ℚ) (l : List ℚ)
    (h2 : std l ^ 2 = variance l) (h0 : std l ≠ 0) :
    variance (zscore std l) = 1 := by
  have hvar : variance l ≠ 0 := by rw [← h2]; exact pow_ne_zero 2 h0
  have hl : l ≠ [] := by
    intro h; rw [h] at hvar; exact hvar (by simp [variance, listMean])
  have hn : (l.length : ℚ) ≠ 0 := by
    simpa using fun h => hl (List.length_eq_zero.mp h)
  have h2q : std l ^ 2 =
      (l.map (fun x => (x - listMean l) ^ 2)).sum / (l.length : ℚ) := by
    rw [h2]; unfold variance listMean; rw [List.length_map]
  have hsum : std l ^ 2 * (l.length : ℚ) =
      (l.map (fun x => (x - listMean l) ^ 2)).sum := (eq_div_iff hn).mp h2q
  unfold variance
  rw [listMean_zscore]
  simp only [sub_zero]
  unfold zscore
  rw [List.map_map]
  simp only [Function.comp_def, div_pow]
  show (l.map (fun x => (x - listMean l) ^ 2 / std l ^ 2)).sum /
      (((l.map (fun x => (x - listMean l) ^ 2 / std l ^ 2)).length : ℕ) : ℚ) = 1
  rw [List.length_map, sum_map_div l (fun x => (x - listMean l) ^ 2),
    ← hsum, mul_div_cancel_left₀ _ (pow_ne_zero 2 h0), div_self hn]

/-- Claim C7: in seed-map mode, whenever the raw weighted-average reference
series has non-zero variance (equivalently, a non-zero standard
deviation that squares to the variance), the z-scored reference series
used in the final dot product has mean exactly 0 and variance exactly 1
(exact rational counterparts of mean 0 and standard deviation 1 within
floating-point tolerance). -/
theorem zscored_series_mean_zero_sd_one (std : List ℚ → ℚ)
    (subjMask : List Bool) (seedmapVol stimVol : List ℚ) (nDummy : ℕ)
    (runs : List (List (List ℚ))) (ts0 : List ℚ)
    (hraw : rawSeedSeries subjMask seedmapVol stimVol nDummy runs = some ts0)
    (hstd2 : std ts0 ^ 2 = variance ts0) (hstd : std ts0 ≠ 0) :
    listMean (zscore std ts0) = 0 ∧ variance (zscore std ts0) = 1 :=
  ⟨listMean_zscore std ts0, variance_zscore std ts0 hstd2 hstd⟩

/-- Witness for C7 at a concrete input. -/
theorem zscored_series_mean_zero_sd_one_witness :
    rawSeedSeries [true, true] [1, 1] [1, 0] 0 [[[1, 5], [-1, 7]]] =
        some [5, 7] ∧
      listMean (zscore (fun _ => 1) [5, 7]) = 0 ∧
      variance (zscore (fun _ => 1) [5, 7]) = 1 := by
  have hraw : rawSeedSeries [true, true] [1, 1] [1, 0] 0 [[[1, 5], [-1, 7]]] =
      some [5, 7] := by
    norm_num [rawSeedSeries, npAverage, catRuns, seedWeights, zeroAtStim,
      applyMask, dot, List.zip, List.filterMap_cons]
  exact ⟨hraw, zscored_series_mean_zero_sd_one (fun _ => 1) [true, true]
    [1, 1] [1, 0] 0 [[[1, 5], [-1, 7]]] [5, 7] hraw
    (by norm_num [variance, listMean]) (by norm_num)⟩


/-- Pointwise-equal functions map a list to the same list. -/
theorem map_congr_mem {α β : Type} (l : List α) (f g : α → β)
    (h : ∀ a ∈ l, f a = g a) : l.map f = l.map g := by
  induction l with
  | nil => rfl
  | cons x xs ih =>
    rw [List.map_cons, List.map_cons, h x (by simp),
      ih (fun a ha => h a (by simp [ha]))]

/-- Reading a range-indexed map back at each range index is the map itself. -/
theorem map_range_getD_self (n : ℕ) (h : ℕ → ℚ) :
    (List.range n).map (fun j => ((List.range n).map h).getD j 0) =
      (List.range n).map h :=
  map_congr_mem _ _ _ (fun j hj => by
    have hj2 : j < n := List.mem_range.mp hj
    rw [getD_map_lt (List.range n) h 0 0 j (by simpa using hj2),
      range_getD n j hj2])

/-- Column j of the transposed homogeneous coordinate matrix is the
homogeneous coordinate vector of voxel j. -/
theorem transpose_hom_column (vs : List (ℕ × ℕ × ℕ)) (j : ℕ)
    (hj : j < vs.length) :
    column (transposeMat (vs.map toHom) 4) j = toHom (vs.getD j (0, 0, 0)) := by
  have hm : ∀ m : ℕ, (column (vs.map toHom) m).getD j 0 =
      (toHom (vs.getD j (0, 0, 0))).getD m 0 := by
    intro m
    rw [column, List.map_map]
    exact getD_map_lt vs _ (0, 0, 0) 0 j hj
  show [(column (vs.map toHom) 0).getD j 0,
      (column (vs.map toHom) 1).getD j 0,
      (column (vs.map toHom) 2).getD j 0,
      (column (vs.map toHom) 3).getD j 0] = toHom (vs.getD j (0, 0, 0))
  rw [hm 0, hm 1, hm 2, hm 3]
  rfl

/-- One row of the affine-times-transposed-coordinates product, read across
all voxels, is the per-voxel dot product of that affine row with the
homogeneous coordinates. -/
theorem matmul_hom_row (a : List ℚ) (vs : List (ℕ × ℕ × ℕ)) :
    (List.range vs.length).map
        (fun j => dot a (column (transposeMat (vs.map toHom) 4) j)) =
      vs.map (fun v => dot a (toHom v)) := by
  rw [map_congr_mem (List.range vs.length) _
    (fun j => dot a (toHom (vs.getD j (0, 0, 0))))
    (fun j hj => congrArg (dot a) (transpose_hom_column vs j (List.mem_range.mp hj)))]
  exact map_range_getD (fun v => dot a (toHom v)) (0, 0, 0) vs

/-- Spatial column c of the sliced transposed product is the per-voxel dot
product of affine row a with the homogeneous coordinates, provided the
slice extracts exactly that product row (discharged by rfl at concrete
row indices). -/
theorem com_locs_column (a : List ℚ) (aa : List (List ℚ))
    (vs : List (ℕ × ℕ × ℕ)) (c : ℕ)
    (hcol : ∀ j : ℕ,
      ((column (matmulN aa (transposeMat (vs.map toHom) 4)
            (vs.map toHom).length) j).take 3).getD c 0 =
        ((List.range (vs.map toHom).length).map
            (fun j2 => dot a (column (transposeMat (vs.map toHom) 4) j2))).getD j 0) :
    column ((transposeMat (matmulN aa (transposeMat (vs.map toHom) 4)
          (vs.map toHom).length) ((vs.map toHom).length)).map
        (fun r => r.take 3)) c =
      vs.map (fun v => dot a (toHom v)) := by
  rw [column, List.map_map, transposeMat, List.map_map]
  refine (map_congr_mem _ _
    (fun j => ((List.range (vs.map toHom).length).map
      (fun j2 => dot a (column (transposeMat (vs.map toHom) 4) j2))).getD j 0)
    (fun j _ => hcol j)).trans ?_
  rw [map_range_getD_self, List.length_map]
  exact matmul_hom_row a vs

/-- Claim C8: get_com_in_mm returns, componentwise, the mean over all
non-zero voxels of the first three components of the affine applied to
the homogeneous integer grid coordinates of each voxel. -/
theorem com_in_mm_correct (img : ClustImage) (a0 a1 a2 a3 : List ℚ)
    (haff : img.affine = [a0, a1, a2, a3])
    (hne : nonzeroVoxels img ≠ []) :
    get_com_in_mm img = some
      [listMean ((nonzeroVoxels img).map (fun v => dot a0 (toHom v))),
       listMean ((nonzeroVoxels img).map (fun v => dot a1 (toHom v))),
       listMean ((nonzeroVoxels img).map (fun v => dot a2 (toHom v)))] := by
  have hL : ((nonzeroVoxels img).map toHom).isEmpty = false := by
    cases h : nonzeroVoxels img with
    | nil => exact absurd h hne
    | cons v vs2 => rfl
  rw [get_com_in_mm, haff]
  rw [if_neg (by rw [hL]; exact Bool.false_ne_true)]
  rw [Option.some.injEq]
  show [listMean (column ((transposeMat (matmulN [a0, a1, a2, a3]
          (transposeMat ((nonzeroVoxels img).map toHom) 4)
          (((nonzeroVoxels img).map toHom)).length)
          ((((nonzeroVoxels img).map toHom)).length)).map (fun r => r.take 3)) 0),
      listMean (column ((transposeMat (matmulN [a0, a1, a2, a3]
          (transposeMat ((nonzeroVoxels img).map toHom) 4)
          (((nonzeroVoxels img).map toHom)).length)
          ((((nonzeroVoxels img).map toHom)).length)).map (fun r => r.take 3)) 1),
      listMean (column ((transposeMat (matmulN [a0, a1, a2, a3]
          (transposeMat ((nonzeroVoxels img).map toHom) 4)
          (((nonzeroVoxels img).map toHom)).length)
          ((((nonzeroVoxels img).map toHom)).length)).map (fun r => r.take 3)) 2)] =
    [listMean ((nonzeroVoxels img).map (fun v => dot a0 (toHom v))),
     listMean ((nonzeroVoxels img).map (fun v => dot a1 (toHom v))),
     listMean ((nonzeroVoxels img).map (fun v => dot a2 (toHom v)))]
  rw [com_locs_column a0 [a0, a1, a2, a3] (nonzeroVoxels img) 0 (fun j => rfl),
    com_locs_column a1 [a0, a1, a2, a3] (nonzeroVoxels img) 1 (fun j => rfl),
    com_locs_column a2 [a0, a1, a2, a3] (nonzeroVoxels img) 2 (fun j => rfl)]


/-- Witness for C8: a single non-zero voxel at grid index (2, 3, 5) with an
identity affine gives exactly that voxel's integer coordinates. -/
theorem com_in_mm_correct_witness :
    nonzeroVoxels comTestImg ≠ [] ∧ get_com_in_mm comTestImg = some [2, 3, 5] := by
  have hvs : nonzeroVoxels comTestImg = [(2, 3, 5)] := by decide
  refine ⟨by decide, ?_⟩
  refine (com_in_mm_correct comTestImg [1, 0, 0, 0] [0, 1, 0, 0] [0, 0, 1, 0]
    [0, 0, 0, 1] rfl (by decide)).trans ?_
  rw [hvs]
  norm_num [toHom, dot, listMean]

end Contarg
